import Mathlib

/- Verification of tools/profile.py (osquery query profiler).

   Shallow embedding notes:
   - Python floats are modelled as exact rationals (ℚ).
   - The psutil process handle and wall clock are modelled by an oracle
     (ProcBehavior) giving, for each poll iteration: whether the process is
     still running, whether the stats call raises AccessDenied, and the
     sampled stats; plus the elapsed wall time observed at loop exit.
   - Fallible Python code is modelled with Except PyError; the polling loop
     is fuel-indexed (none = fuel exhausted, i.e. the loop has not finished
     within that many iterations).
   - Text is modelled as List Char; str.split / str.strip / str.find are
     given structural models below. -/

/-- Python exceptions that the modelled code can raise.
    nameError models the NameError / UnboundLocalError raised at
    profile.py line 194 when the local variable stats was never assigned;
    indexError models the IndexError raised by line.split(":")[1] at
    profile.py line 112 when the line has no colon. -/
inductive PyError
  | nameError
  | indexError
deriving DecidableEq

/-- profile.py line 37: KB = 1024 * 1024 (the source's own name, kept). -/
def KB : ℚ := 1024 * 1024

/-- profile.py lines 38-45: the RANGES threshold table, as a map from metric
    name to its ascending threshold tuple.  The "colors" entry of the source
    dict holds display functions, not thresholds, and is skipped by summary()
    (line 212), so it is omitted here.  0.4 = 2/5, 0.8 = 4/5. -/
def RANGES : String → Option (List ℚ)
  | "utilization" => some [8, 20, 50]
  | "cpu_time" => some [2/5, 1, 10]
  | "memory" => some [8 * KB, 12 * KB, 24 * KB]
  | "fds" => some [6, 12, 50]
  | "duration" => some [4/5, 1, 3]
  | _ => none

/-- profile.py lines 203-206 (nested in summary()): return the first index i
    with value < ranges[i], else len(ranges). -/
def rank (value : ℚ) : List ℚ → Nat
  | [] => 0
  | r :: rs => if value < r then 0 else rank value rs + 1

/-- One stats snapshot, as downselected by get_stats (profile.py lines 84-93).
    The io_counters field is omitted: it is platform-dependent and unused by
    run_query's result. -/
structure Sample where
  utilization : ℚ
  fds : ℚ
  user : ℚ
  system : ℚ
  rss : ℚ
deriving DecidableEq

/-- Oracle for the subprocess and psutil: at poll iteration k, whether
    p.is_running() is true, whether get_stats raises psutil.AccessDenied,
    and the Sample get_stats would return; elapsed is the wall-clock time
    time.time() - start_time observed after the loop (line 183). -/
structure ProcBehavior where
  running : Nat → Bool
  denied : Nat → Bool
  sample : Nat → Sample
  elapsed : ℚ

/-- How the polling loop of run_query stopped. -/
inductive LoopExit
  | exited
  | denied
  | killed
deriving DecidableEq

/-- State of run_query's local variables when the polling loop stops:
    the collected percents list, the last successfully assigned stats
    (none when stats was never assigned), the accumulated delay, and how
    the loop stopped. -/
structure LoopOut where
  percents : List ℚ
  last : Option Sample
  delay : ℚ
  outcome : LoopExit
deriving DecidableEq

/-- profile.py line 169: step = 0.5. -/
def step : ℚ := 1/2

/-- profile.py lines 168-182: the polling loop of run_query.
    while p.is_running(): sample (AccessDenied breaks); append utilization;
    delay += step; if timeout > 0 and delay >= timeout + 2: kill and break.
    Fuel-indexed; none means the loop did not stop within fuel iterations. -/
def run_loop (beh : ProcBehavior) (timeout : ℚ) :
    Nat → Nat → ℚ → List ℚ → Option Sample → Option LoopOut
  | 0, _, _, _, _ => none
  | fuel + 1, k, delay, percents, last =>
    if beh.running k then
      if beh.denied k then some ⟨percents, last, delay, LoopExit.denied⟩
      else
        let s := beh.sample k
        let percents' := percents ++ [s.utilization]
        let delay' := delay + step
        if 0 < timeout ∧ timeout + 2 ≤ delay' then
          some ⟨percents', some s, delay', LoopExit.killed⟩
        else run_loop beh timeout fuel (k + 1) delay' percents' (some s)
    else some ⟨percents, last, delay, LoopExit.exited⟩

/-- profile.py lines 185-189: keep the non-zero percents; average them, or
    use 0 when none remain. -/
def avg_utilization (percents : List ℚ) : ℚ :=
  let utilization := percents.filter (fun p => decide (p ≠ 0))
  if utilization.length = 0 then 0
  else utilization.sum / utilization.length

/-- One run's result record (profile.py lines 191-199). -/
structure RunResult where
  utilization : ℚ
  duration : ℚ
  memory : ℚ
  user_time : ℚ
  system_time : ℚ
  cpu_time : ℚ
  fds : ℚ
deriving DecidableEq

/-- profile.py lines 183-199: build the result dict after the loop.
    duration = elapsed - 2 (line 183).  When the loop never assigned stats
    (no successful sample), evaluating stats["memory"] at line 194 raises
    NameError: that is the .error branch. -/
def buildRunResult (percents : List ℚ) (stats : Option Sample) (elapsed : ℚ) :
    Except PyError RunResult :=
  match stats with
  | none => Except.error PyError.nameError
  | some s =>
    Except.ok
      { utilization := avg_utilization percents
        duration := elapsed - 2
        memory := s.rss
        user_time := s.user
        system_time := s.system
        cpu_time := s.user + s.system
        fds := s.fds }

/-- profile.py lines 158-199: run_query = polling loop + result build.
    none means the loop did not stop within fuel iterations. -/
def run_query (beh : ProcBehavior) (timeout : ℚ) (fuel : Nat) :
    Option (Except PyError RunResult) :=
  (run_loop beh timeout fuel 0 0 [] none).map
    (fun out => buildRunResult out.percents out.last beh.elapsed)

/-- The per-field value lists built by profile() (profile.py lines 234-237):
    results[k] collects field k of every round's result, in round order. -/
structure FieldLists where
  utilization : List ℚ
  duration : List ℚ
  memory : List ℚ
  user_time : List ℚ
  system_time : List ℚ
  cpu_time : List ℚ
  fds : List ℚ

/-- One iteration of the accumulation at profile.py lines 235-237: append
    each field of this round's result to its list. -/
def collectStep (acc : FieldLists) (r : RunResult) : FieldLists :=
  { utilization := acc.utilization ++ [r.utilization]
    duration := acc.duration ++ [r.duration]
    memory := acc.memory ++ [r.memory]
    user_time := acc.user_time ++ [r.user_time]
    system_time := acc.system_time ++ [r.system_time]
    cpu_time := acc.cpu_time ++ [r.cpu_time]
    fds := acc.fds ++ [r.fds] }

/-- profile.py lines 230-237: collect every round's fields. -/
def collectFields (runs : List RunResult) : FieldLists :=
  runs.foldl collectStep ⟨[], [], [], [], [], [], []⟩

/-- profile.py line 240: sum(results[k]) / len(results[k]). -/
def listAvg (l : List ℚ) : ℚ := l.sum / l.length

/-- profile.py lines 238-241: the per-query averaged result over the rounds
    (average_results in the source). -/
def average_results (runs : List RunResult) : RunResult :=
  let f := collectFields runs
  { utilization := listAvg f.utilization
    duration := listAvg f.duration
    memory := listAvg f.memory
    user_time := listAvg f.user_time
    system_time := listAvg f.system_time
    cpu_time := listAvg f.cpu_time
    fds := listAvg f.fds }

/-- Spec-side definition (section 3 and section 8 of the spec): the
    arithmetic mean of a list of numbers. -/
def mean (l : List ℚ) : ℚ := l.sum / l.length

/-- Spec-side definition, following the spec's words: the arithmetic mean of
    exactly those samples that are non-zero; 0 when every sample is zero or
    no samples were collected. -/
def specNonZeroMean (samples : List ℚ) : ℚ :=
  let nz := samples.filter (fun p => decide (p ≠ 0))
  if nz = [] then 0 else mean nz

/-- Whitespace characters stripped by Python str.strip(). -/
def isSpaceChar (c : Char) : Bool :=
  c == ' ' || c == '\t' || c == '\n' || c == '\r'

/-- Python str.strip(): drop leading and trailing whitespace. -/
def trimChars (l : List Char) : List Char :=
  ((l.dropWhile isSpaceChar).reverse.dropWhile isSpaceChar).reverse

/-- Python str.split(sep) for a one-character separator: "".split gives
    [""], and n separators give n+1 parts. -/
def splitOnChar (c : Char) : List Char → List (List Char)
  | [] => [[]]
  | x :: xs =>
    match splitOnChar c xs with
    | [] => [[]]
    | g :: gs => if x = c then [] :: g :: gs else (x :: g) :: gs

/-- Whether needle is a prefix of hay. -/
def startsWith : List Char → List Char → Bool
  | [], _ => true
  | _ :: _, [] => false
  | n :: ns, h :: hs => n == h && startsWith ns hs

/-- Python line.find(needle) >= 0: needle occurs somewhere in hay. -/
def containsTok (needle : List Char) : List Char → Bool
  | [] => startsWith needle []
  | h :: hs => startsWith needle (h :: hs) || containsTok needle hs

/-- profile.py line 112: line.split(":")[1].strip().  none models the
    IndexError raised when the line has no colon; otherwise the text between
    the first and the second colon (the whole remainder when the line has
    exactly one colon), stripped. -/
def splitColonSecond (line : List Char) : Option (List Char) :=
  match splitOnChar ':' line with
  | _ :: v :: _ => some (trimChars v)
  | _ => none

/-- The leak summary dict of check_leaks_linux (profile.py lines 104-108). -/
structure LeakSummary where
  definitely : Option (List Char)
  indirectly : Option (List Char)
  possibly : Option (List Char)
deriving DecidableEq

/-- The tokens scanned for at profile.py line 110. -/
def defTok : List Char := ("definitely").data

/-- Second scanned token. -/
def indTok : List Char := ("indirectly").data

/-- Third scanned token. -/
def posTok : List Char := ("possibly").data

/-- profile.py lines 111-112, for one key of the summary dict: if the line
    contains the key, overwrite the field with line.split(":")[1].strip(),
    raising IndexError when the line has no colon; otherwise leave the
    summary unchanged. -/
def updateField (line : List Char) (key : List Char)
    (assign : LeakSummary → List Char → LeakSummary) (s : LeakSummary) :
    Except PyError LeakSummary :=
  if containsTok key line then
    match splitColonSecond line with
    | some v => Except.ok (assign s v)
    | none => Except.error PyError.indexError
  else Except.ok s

/-- profile.py lines 110-112: the inner loop over the three summary keys for
    one stderr line.  Key order does not affect the outcome: distinct keys
    assign distinct fields, and the only possible error value is
    indexError. -/
def processLine (s : LeakSummary) (line : List Char) :
    Except PyError LeakSummary := do
  let s1 ← updateField line defTok
    (fun t v => { t with definitely := some v }) s
  let s2 ← updateField line indTok
    (fun t v => { t with indirectly := some v }) s1
  updateField line posTok (fun t v => { t with possibly := some v }) s2

/-- profile.py lines 104-113: split the captured stderr on newlines and scan
    every line, starting from the all-None summary. -/
def check_leaks_linux (errText : List Char) : Except PyError LeakSummary :=
  (splitOnChar '\n' errText).foldlM processLine ⟨none, none, none⟩

/-- Fold step recording the most recent line containing the key. -/
def updAcc (key : List Char) (acc : Option (List Char)) (l : List Char) :
    Option (List Char) :=
  if containsTok key l then some l else acc

/-- The last line of the list that contains the key, if any. -/
def lastMatch (key : List Char) (lines : List (List Char)) :
    Option (List Char) :=
  lines.foldl (updAcc key) none

/-- Join the parts back with the separator character. -/
def joinWithChar (c : Char) : List (List Char) → List Char
  | [] => []
  | [g] => g
  | g :: gs => g ++ c :: joinWithChar c gs

/-- Spec-side definition, following the claim's words: the text after the
    FIRST colon on the line (all of it, colons included), trimmed; none when
    the line has no colon. -/
def textAfterFirstColon (line : List Char) : Option (List Char) :=
  match splitOnChar ':' line with
  | [] => none
  | [_] => none
  | _ :: v :: rest => some (trimChars (joinWithChar ':' (v :: rest)))

/-- A subprocess that never exits and never denies access: used to witness
    the timeout-enforcement claim. -/
def behForever : ProcBehavior :=
  { running := fun _ => true
    denied := fun _ => false
    sample := fun _ => { utilization := 0, fds := 0, user := 0, system := 0, rss := 0 }
    elapsed := 0 }

/-- A subprocess that has already exited before the first poll: is_running()
    is false immediately, so no sample is ever taken. -/
def behGone : ProcBehavior :=
  { running := fun _ => false
    denied := fun _ => false
    sample := fun _ => { utilization := 0, fds := 0, user := 0, system := 0, rss := 0 }
    elapsed := 2 }

/-- A subprocess for which the very first stats call raises AccessDenied,
    so no sample is ever taken. -/
def behDeniedFirst : ProcBehavior :=
  { running := fun _ => true
    denied := fun _ => true
    sample := fun _ => { utilization := 0, fds := 0, user := 0, system := 0, rss := 0 }
    elapsed := 2 }

/-- A subprocess that is polled exactly once and then exits. -/
def behOne : ProcBehavior :=
  { running := fun k => k == 0
    denied := fun _ => false
    sample := fun _ => { utilization := 10, fds := 4, user := 3/2, system := 1/2, rss := 1000 }
    elapsed := 3 }

/-- A subprocess polled five times, with utilization samples 0,0,10,20,0:
    the spec's worked utilization-averaging example. -/
def behFive : ProcBehavior :=
  { running := fun k => decide (k < 5)
    denied := fun _ => false
    sample := fun k =>
      { utilization := [0, 0, 10, 20, 0].getD k 0
        fds := 4, user := 1, system := 1, rss := 500 }
    elapsed := 5 }

/-- Loop state reached by behFive after its five polls. -/
def outFive : LoopOut :=
  { percents := [0, 0, 10, 20, 0]
    last := some { utilization := 0, fds := 4, user := 1, system := 1, rss := 500 }
    delay := 5/2
    outcome := LoopExit.exited }

/-- The run result produced from behFive. -/
def rFive : RunResult :=
  { utilization := 15, duration := 3, memory := 500
    user_time := 1, system_time := 1, cpu_time := 2, fds := 4 }

/-- The run result produced from behOne. -/
def rOne : RunResult :=
  { utilization := 10, duration := 1, memory := 1000
    user_time := 3/2, system_time := 1/2, cpu_time := 2, fds := 4 }

/-- A concrete round result, for aggregation witnesses. -/
def raRun : RunResult :=
  { utilization := 10, duration := 1, memory := 1000
    user_time := 1, system_time := 2, cpu_time := 3, fds := 4 }

/-- A second concrete round result, for aggregation witnesses. -/
def rbRun : RunResult :=
  { utilization := 20, duration := 3, memory := 2000
    user_time := 2, system_time := 3, cpu_time := 5, fds := 6 }

deriving instance DecidableEq for Except

/-- The rank returned by the classifier never exceeds the number of
    thresholds. -/
theorem rank_le_length (v : ℚ) (ts : List ℚ) : rank v ts ≤ ts.length := by
  induction ts with
  | nil => simp [rank]
  | cons r rs ih =>
    simp only [rank, List.length_cons]
    split
    · omega
    · omega

/-- When the rank is below the number of thresholds, the value is strictly
    below the threshold at that index. -/
theorem rank_lt_val (v : ℚ) (ts : List ℚ) (h : rank v ts < ts.length) :
    v < ts.getD (rank v ts) 0 := by
  induction ts with
  | nil => simp [rank] at h
  | cons r rs ih =>
    by_cases hv : v < r
    · simp [rank, hv]
    · have h' : rank v rs < rs.length := by
        simpa [rank, hv] using h
      simpa [rank, hv] using ih h'

/-- Every threshold at an index below the returned rank is at most the
    value: the rank is the smallest index whose threshold is above the
    value. -/
theorem rank_before_le (v : ℚ) (ts : List ℚ) (j : Nat)
    (hj : j < rank v ts) : ts.getD j 0 ≤ v := by
  induction ts generalizing j with
  | nil => simp [rank] at hj
  | cons r rs ih =>
    by_cases hv : v < r
    · simp [rank, hv] at hj
    · cases j with
      | zero => simpa using not_lt.mp hv
      | succ n =>
        have hn : n < rank v rs := by
          have := hj
          simp only [rank, if_neg hv] at this
          omega
        simpa using ih n hn

/-- When the value is at least every threshold, the classifier returns the
    number of thresholds (the worst bucket). -/
theorem rank_all_le (v : ℚ) (ts : List ℚ) (hall : ∀ t ∈ ts, t ≤ v) :
    rank v ts = ts.length := by
  rcases lt_or_eq_of_le (rank_le_length v ts) with hlt | heq
  · exfalso
    have hv := rank_lt_val v ts hlt
    have hget : ts.getD (rank v ts) 0 = ts[rank v ts] :=
      List.getD_eq_getElem ts 0 hlt
    have hmem : ts[rank v ts] ∈ ts := List.getElem_mem hlt
    have hle := hall _ hmem
    rw [hget] at hv
    exact absurd hv (not_lt.mpr hle)
  · exact heq

/-- The classifier is monotone in the value, for any threshold list. -/
theorem rank_mono_aux (x y : ℚ) (ts : List ℚ) (hxy : x ≤ y) :
    rank x ts ≤ rank y ts := by
  induction ts with
  | nil => simp [rank]
  | cons r rs ih =>
    by_cases hy : y < r
    · have hx : x < r := lt_of_le_of_lt hxy hy
      simp [rank, hx, hy]
    · by_cases hx : x < r
      · simp [rank, hx]
      · simp only [rank, if_neg hx, if_neg hy]
        omega

/-- C2: for every metric name with a threshold tuple in RANGES and every
    value, the classifier's rank is the smallest index whose threshold is
    strictly above the value (every earlier threshold is at most the value),
    and it equals the tuple length when the value is at least every
    threshold; for cpu_time with thresholds (0.4, 1, 10) the values
    0.3, 0.4, 1.0, 10.0, 50.0 rank 0, 1, 2, 3, 3 respectively. -/
theorem rank_smallest_index (name : String) (ts : List ℚ) (v : ℚ)
    (h : RANGES name = some ts) :
    (rank v ts ≤ ts.length
      ∧ (rank v ts < ts.length → v < ts.getD (rank v ts) 0)
      ∧ (∀ j, j < rank v ts → ts.getD j 0 ≤ v)
      ∧ ((∀ t ∈ ts, t ≤ v) → rank v ts = ts.length))
    ∧ RANGES ("cpu_time") = some [2/5, 1, 10]
    ∧ rank (3/10) [2/5, 1, 10] = 0
    ∧ rank (2/5) [2/5, 1, 10] = 1
    ∧ rank 1 [2/5, 1, 10] = 2
    ∧ rank 10 [2/5, 1, 10] = 3
    ∧ rank 50 [2/5, 1, 10] = 3 := by
  refine ⟨⟨rank_le_length v ts, rank_lt_val v ts, ?_, rank_all_le v ts⟩,
    rfl, ?_, ?_, ?_, ?_, ?_⟩
  · exact fun j hj => rank_before_le v ts j hj
  · norm_num [rank]
  · norm_num [rank]
  · norm_num [rank]
  · norm_num [rank]
  · norm_num [rank]

/-- Witness for C2: the theorem applied to the cpu_time metric at value 7. -/
theorem rank_smallest_index_witness :
    RANGES ("cpu_time") = some [2/5, 1, 10]
    ∧ rank (3/10) [2/5, 1, 10] = 0
    ∧ rank (2/5) [2/5, 1, 10] = 1
    ∧ rank 1 [2/5, 1, 10] = 2
    ∧ rank 10 [2/5, 1, 10] = 3
    ∧ rank 50 [2/5, 1, 10] = 3 :=
  (rank_smallest_index ("cpu_time") [2/5, 1, 10] 7 rfl).2

/-- C9: for every metric with a threshold tuple in RANGES, the classifier
    rank is monotone non-decreasing in the value. -/
theorem rank_monotone (name : String) (ts : List ℚ) (h : RANGES name = some ts)
    (x y : ℚ) (hxy : x ≤ y) : rank x ts ≤ rank y ts :=
  rank_mono_aux x y ts hxy

/-- Witness for C9: monotonicity at the cpu_time thresholds for 1 ≤ 2. -/
theorem rank_monotone_witness :
    rank 1 [2/5, 1, 10] ≤ rank 2 [2/5, 1, 10] :=
  rank_monotone ("cpu_time") [2/5, 1, 10] rfl 1 2 (by norm_num)

/-- The per-field accumulation of profile() appends, in round order, exactly
    the per-round field values to whatever is already accumulated. -/
theorem collectFields_go (runs : List RunResult) : ∀ acc : FieldLists,
    (runs.foldl collectStep acc).utilization
        = acc.utilization ++ runs.map RunResult.utilization
    ∧ (runs.foldl collectStep acc).duration
        = acc.duration ++ runs.map RunResult.duration
    ∧ (runs.foldl collectStep acc).memory
        = acc.memory ++ runs.map RunResult.memory
    ∧ (runs.foldl collectStep acc).user_time
        = acc.user_time ++ runs.map RunResult.user_time
    ∧ (runs.foldl collectStep acc).system_time
        = acc.system_time ++ runs.map RunResult.system_time
    ∧ (runs.foldl collectStep acc).cpu_time
        = acc.cpu_time ++ runs.map RunResult.cpu_time
    ∧ (runs.foldl collectStep acc).fds
        = acc.fds ++ runs.map RunResult.fds := by
  induction runs with
  | nil => intro acc; simp
  | cons r rest ih =>
    intro acc
    obtain ⟨h1, h2, h3, h4, h5, h6, h7⟩ := ih (collectStep acc r)
    simp only [collectStep] at h1 h2 h3 h4 h5 h6 h7
    refine ⟨?_, ?_, ?_, ?_, ?_, ?_, ?_⟩ <;>
      simp [List.foldl_cons, collectStep, h1, h2, h3, h4, h5, h6, h7]

/-- C3: the aggregated result over a non-empty list of per-round results
    has, in every numeric field, exactly the arithmetic mean of that field
    across the rounds. -/
theorem average_results_is_mean (runs : List RunResult) (h : runs ≠ []) :
    (average_results runs).utilization = mean (runs.map RunResult.utilization)
    ∧ (average_results runs).duration = mean (runs.map RunResult.duration)
    ∧ (average_results runs).memory = mean (runs.map RunResult.memory)
    ∧ (average_results runs).user_time = mean (runs.map RunResult.user_time)
    ∧ (average_results runs).system_time
        = mean (runs.map RunResult.system_time)
    ∧ (average_results runs).cpu_time = mean (runs.map RunResult.cpu_time)
    ∧ (average_results runs).fds = mean (runs.map RunResult.fds) := by
  obtain ⟨h1, h2, h3, h4, h5, h6, h7⟩ :=
    collectFields_go runs ⟨[], [], [], [], [], [], []⟩
  refine ⟨?_, ?_, ?_, ?_, ?_, ?_, ?_⟩ <;>
    simp [average_results, collectFields, h1, h2, h3, h4, h5, h6, h7,
      listAvg, mean]

/-- Witness for C3: aggregation over two concrete rounds. -/
theorem average_results_is_mean_witness :
    (average_results [raRun, rbRun]).utilization
        = mean ([raRun, rbRun].map RunResult.utilization)
    ∧ (average_results [raRun, rbRun]).duration
        = mean ([raRun, rbRun].map RunResult.duration)
    ∧ (average_results [raRun, rbRun]).memory
        = mean ([raRun, rbRun].map RunResult.memory)
    ∧ (average_results [raRun, rbRun]).user_time
        = mean ([raRun, rbRun].map RunResult.user_time)
    ∧ (average_results [raRun, rbRun]).system_time
        = mean ([raRun, rbRun].map RunResult.system_time)
    ∧ (average_results [raRun, rbRun]).cpu_time
        = mean ([raRun, rbRun].map RunResult.cpu_time)
    ∧ (average_results [raRun, rbRun]).fds
        = mean ([raRun, rbRun].map RunResult.fds) :=
  average_results_is_mean [raRun, rbRun] (by simp)

/-- Inductive core of the timeout argument: when the process keeps running
    and stats never raises, the loop stops with a kill at the first
    iteration whose accumulated delay reaches timeout + 2, within any fuel
    budget large enough to get the delay there. -/
theorem run_loop_kill_aux (beh : ProcBehavior) (timeout : ℚ) (ht : 0 < timeout)
    (halive : ∀ k, beh.running k = true) (hden : ∀ k, beh.denied k = false) :
    ∀ (fuel k : Nat) (delay : ℚ) (percents : List ℚ) (last : Option Sample),
      delay < timeout + 2 → timeout + 2 ≤ delay + fuel * step →
      ∃ out, run_loop beh timeout fuel k delay percents last = some out ∧
        out.outcome = LoopExit.killed ∧ timeout + 2 ≤ out.delay ∧
        out.delay < timeout + 2 + step := by
  intro fuel
  induction fuel with
  | zero =>
    intro k delay percents last hlt hle
    exfalso
    simp only [Nat.cast_zero, zero_mul, add_zero] at hle
    linarith
  | succ fuel ih =>
    intro k delay percents last hlt hle
    by_cases hkill : timeout + 2 ≤ delay + step
    · refine ⟨⟨percents ++ [(beh.sample k).utilization], some (beh.sample k),
        delay + step, LoopExit.killed⟩, ?_, rfl, hkill, ?_⟩
      · simp [run_loop, halive k, hden k, ht, hkill]
      · show delay + step < timeout + 2 + step
        linarith
    · have hlt' : delay + step < timeout + 2 := not_le.mp hkill
      have hle' : timeout + 2 ≤ (delay + step) + fuel * step := by
        push_cast at hle ⊢
        linarith
      obtain ⟨out, hout, hkilled, hge, hlt2⟩ :=
        ih (k + 1) (delay + step)
          (percents ++ [(beh.sample k).utilization]) (some (beh.sample k))
          hlt' hle'
      refine ⟨out, ?_, hkilled, hge, hlt2⟩
      rw [run_loop]
      simp only [halive k, hden k, if_true, Bool.false_eq_true, if_false]
      simp only [hkill, and_false, if_false]
      exact hout

/-- C4: with a positive timeout, a subprocess that never exits, and sampling
    that never raises, the polling loop of run_query forcibly kills the
    subprocess and stops as soon as the accumulated delay reaches
    timeout + 2: it stops in a killed state with delay in
    [timeout + 2, timeout + 2 + step), within any fuel budget of at least
    (timeout + 2) / step iterations, so it never polls indefinitely. -/
theorem run_loop_timeout_kills (beh : ProcBehavior) (timeout : ℚ) (fuel : Nat)
    (ht : 0 < timeout) (halive : ∀ k, beh.running k = true)
    (hden : ∀ k, beh.denied k = false)
    (hfuel : timeout + 2 ≤ fuel * step) :
    ∃ out, run_loop beh timeout fuel 0 0 [] none = some out ∧
      out.outcome = LoopExit.killed ∧ timeout + 2 ≤ out.delay ∧
      out.delay < timeout + 2 + step :=
  run_loop_kill_aux beh timeout ht halive hden fuel 0 0 [] none
    (by linarith) (by simpa using hfuel)

/-- Witness for C4: timeout 2 and a subprocess that never exits: 8 polls of
    0.5 each reach delay 4 = 2 + 2, and the loop kills and stops there. -/
theorem run_loop_timeout_kills_witness :
    ∃ out, run_loop behForever 2 8 0 0 [] none = some out ∧
      out.outcome = LoopExit.killed ∧ (2:ℚ) + 2 ≤ out.delay ∧
      out.delay < 2 + 2 + step :=
  run_loop_timeout_kills behForever 2 8 (by norm_num)
    (fun _ => rfl) (fun _ => rfl) (by norm_num [step])

/-- Characterization of a successful run_query: the result record is built
    from the loop's collected percents and its last successful sample. -/
theorem run_query_ok_build (beh : ProcBehavior) (timeout : ℚ) (fuel : Nat)
    (out : LoopOut) (r : RunResult)
    (hloop : run_loop beh timeout fuel 0 0 [] none = some out)
    (hr : run_query beh timeout fuel = some (Except.ok r)) :
    ∃ s, out.last = some s ∧
      r = { utilization := avg_utilization out.percents
            duration := beh.elapsed - 2
            memory := s.rss
            user_time := s.user
            system_time := s.system
            cpu_time := s.user + s.system
            fds := s.fds } := by
  unfold run_query at hr
  rw [hloop] at hr
  rw [Option.map_some'] at hr
  cases hlast : out.last with
  | none =>
    rw [hlast] at hr
    simp [buildRunResult] at hr
  | some s =>
    rw [hlast] at hr
    simp only [buildRunResult, Option.some.injEq, Except.ok.injEq] at hr
    exact ⟨s, rfl, hr.symm⟩

/-- C5: every RunResult produced by run_query has cpu_time equal to
    user_time + system_time exactly. -/
theorem run_query_cpu_time_sum (beh : ProcBehavior) (timeout : ℚ)
    (fuel : Nat) (r : RunResult)
    (hr : run_query beh timeout fuel = some (Except.ok r)) :
    r.cpu_time = r.user_time + r.system_time := by
  cases hloop : run_loop beh timeout fuel 0 0 [] none with
  | none =>
    unfold run_query at hr
    rw [hloop] at hr
    simp at hr
  | some out =>
    obtain ⟨s, hlast, hrr⟩ := run_query_ok_build beh timeout fuel out r hloop hr
    rw [hrr]

/-- Witness for C5: a run polled exactly once, with user time 1.5 and system
    time 0.5, reports cpu_time 2. -/
theorem run_query_cpu_time_sum_witness :
    rOne.cpu_time = rOne.user_time + rOne.system_time :=
  run_query_cpu_time_sum behOne 0 2 rOne (by
    norm_num [run_query, run_loop, behOne, buildRunResult, avg_utilization,
      step, rOne])

/-- C1: the utilization field of every RunResult produced by run_query is
    the arithmetic mean of the non-zero collected utilization samples, and
    it is 0 when every collected sample is zero or no sample was
    collected. -/
theorem run_query_utilization_mean (beh : ProcBehavior) (timeout : ℚ)
    (fuel : Nat) (out : LoopOut) (r : RunResult)
    (hloop : run_loop beh timeout fuel 0 0 [] none = some out)
    (hr : run_query beh timeout fuel = some (Except.ok r)) :
    r.utilization = specNonZeroMean out.percents
    ∧ ((∀ p ∈ out.percents, p = 0) → r.utilization = 0)
    ∧ (out.percents = [] → r.utilization = 0) := by
  obtain ⟨s, hlast, hrr⟩ := run_query_ok_build beh timeout fuel out r hloop hr
  have hav : r.utilization = avg_utilization out.percents := by rw [hrr]
  refine ⟨?_, ?_, ?_⟩
  · rw [hav]
    unfold avg_utilization specNonZeroMean mean
    by_cases hnil : out.percents.filter (fun p => decide (p ≠ 0)) = []
    · simp [hnil]
    · have hlen : (out.percents.filter (fun p => decide (p ≠ 0))).length ≠ 0 := by
        simpa [List.length_eq_zero] using hnil
      simp [hnil, hlen]
  · intro hall
    rw [hav]
    have hnil : out.percents.filter (fun p => decide (p ≠ 0)) = [] := by
      rw [List.filter_eq_nil_iff]
      intro a ha
      simpa using hall a ha
    simp only [avg_utilization]
    rw [hnil]
    simp
  · intro hnil
    rw [hav]
    simp [avg_utilization, hnil]

/-- Witness for C1: the spec's worked example: samples 0, 0, 10, 20, 0 give
    utilization (10 + 20) / 2 = 15. -/
theorem run_query_utilization_mean_witness :
    rFive.utilization = specNonZeroMean outFive.percents
    ∧ ((∀ p ∈ outFive.percents, p = 0) → rFive.utilization = 0)
    ∧ (outFive.percents = [] → rFive.utilization = 0) :=
  run_query_utilization_mean behFive 0 6 outFive rFive
    (by norm_num [run_loop, behFive, step, outFive])
    (by norm_num [run_query, run_loop, behFive, step, outFive, rFive,
      buildRunResult, avg_utilization, List.filter])

/-- C7 (code bug evaluation): when the subprocess has already exited before
    the first poll, or the very first stats call raises AccessDenied,
    run_query raises NameError (the local variable stats at profile.py line
    194 was never assigned) instead of returning a RunResult. -/
theorem run_query_no_sample_crashes :
    run_query behGone 0 1 = some (Except.error PyError.nameError)
    ∧ run_query behDeniedFirst 0 1 = some (Except.error PyError.nameError) := by
  constructor <;> decide

/-- A successful Except bind decomposes into two successful stages. -/
theorem except_bind_ok {ε α β : Type} (x : Except ε α) (f : α → Except ε β)
    (b : β) (h : x >>= f = Except.ok b) :
    ∃ a, x = Except.ok a ∧ f a = Except.ok b := by
  cases x with
  | error e => simp [Bind.bind, Except.bind] at h
  | ok a => exact ⟨a, rfl, by simpa [Bind.bind, Except.bind] using h⟩

/-- A failing Except bind fails at the first or the second stage. -/
theorem except_bind_err {ε α β : Type} (x : Except ε α) (f : α → Except ε β)
    (e : ε) (h : x >>= f = Except.error e) :
    x = Except.error e ∨ ∃ a, x = Except.ok a ∧ f a = Except.error e := by
  cases x with
  | error e2 =>
    left
    have : e2 = e := by simpa [Bind.bind, Except.bind] using h
    rw [this]
  | ok a => exact Or.inr ⟨a, rfl, by simpa [Bind.bind, Except.bind] using h⟩

/-- A successful updateField either saw the key and assigned the parsed
    value, or did not see the key and left the summary unchanged. -/
theorem updateField_ok (line key : List Char)
    (assign : LeakSummary → List Char → LeakSummary) (s s' : LeakSummary)
    (h : updateField line key assign s = Except.ok s') :
    (containsTok key line = true
      ∧ ∃ v, splitColonSecond line = some v ∧ s' = assign s v)
    ∨ (containsTok key line = false ∧ s' = s) := by
  unfold updateField at h
  by_cases hc : containsTok key line = true
  · left
    rw [if_pos hc] at h
    cases hsp : splitColonSecond line with
    | none => rw [hsp] at h; simp at h
    | some v =>
      rw [hsp] at h
      simp only [Except.ok.injEq] at h
      exact ⟨hc, v, rfl, h.symm⟩
  · right
    have hc' : containsTok key line = false := by simpa using hc
    rw [if_neg hc] at h
    simp only [Except.ok.injEq] at h
    exact ⟨hc', h.symm⟩

/-- updateField can only fail with indexError. -/
theorem updateField_err (line key : List Char)
    (assign : LeakSummary → List Char → LeakSummary) (s : LeakSummary)
    (e : PyError) (h : updateField line key assign s = Except.error e) :
    e = PyError.indexError := by
  unfold updateField at h
  by_cases hc : containsTok key line = true
  · rw [if_pos hc] at h
    cases hsp : splitColonSecond line with
    | none =>
      rw [hsp] at h
      simp only [Except.error.injEq] at h
      exact h.symm
    | some v => rw [hsp] at h; simp at h
  · rw [if_neg hc] at h; simp at h

/-- After a successful processLine, the definitely field is the parsed
    value of the line when the line contains "definitely", else the
    previous field value. -/
theorem processLine_def_field (s : LeakSummary) (l : List Char)
    (s' : LeakSummary) (h : processLine s l = Except.ok s') :
    s'.definitely
      = if containsTok defTok l then splitColonSecond l else s.definitely := by
  unfold processLine at h
  obtain ⟨a, ha, h2⟩ := except_bind_ok _ _ _ h
  obtain ⟨b, hb, h3⟩ := except_bind_ok _ _ _ h2
  have hda : a.definitely
      = if containsTok defTok l then splitColonSecond l else s.definitely := by
    rcases updateField_ok _ _ _ _ _ ha with ⟨hc, v, hv, rfl⟩ | ⟨hc, rfl⟩
    · simp [hc, hv]
    · simp [hc]
  have hdb : b.definitely = a.definitely := by
    rcases updateField_ok _ _ _ _ _ hb with ⟨hc, v, hv, rfl⟩ | ⟨hc, rfl⟩ <;> simp
  have hds : s'.definitely = b.definitely := by
    rcases updateField_ok _ _ _ _ _ h3 with ⟨hc, v, hv, rfl⟩ | ⟨hc, rfl⟩ <;> simp
  rw [hds, hdb, hda]

/-- After a successful processLine, the indirectly field is the parsed
    value of the line when the line contains "indirectly", else the
    previous field value. -/
theorem processLine_ind_field (s : LeakSummary) (l : List Char)
    (s' : LeakSummary) (h : processLine s l = Except.ok s') :
    s'.indirectly
      = if containsTok indTok l then splitColonSecond l else s.indirectly := by
  unfold processLine at h
  obtain ⟨a, ha, h2⟩ := except_bind_ok _ _ _ h
  obtain ⟨b, hb, h3⟩ := except_bind_ok _ _ _ h2
  have hda : a.indirectly = s.indirectly := by
    rcases updateField_ok _ _ _ _ _ ha with ⟨hc, v, hv, rfl⟩ | ⟨hc, rfl⟩ <;> simp
  have hdb : b.indirectly
      = if containsTok indTok l then splitColonSecond l else a.indirectly := by
    rcases updateField_ok _ _ _ _ _ hb with ⟨hc, v, hv, rfl⟩ | ⟨hc, rfl⟩
    · simp [hc, hv]
    · simp [hc]
  have hds : s'.indirectly = b.indirectly := by
    rcases updateField_ok _ _ _ _ _ h3 with ⟨hc, v, hv, rfl⟩ | ⟨hc, rfl⟩ <;> simp
  rw [hds, hdb, hda]

/-- After a successful processLine, the possibly field is the parsed value
    of the line when the line contains "possibly", else the previous field
    value. -/
theorem processLine_pos_field (s : LeakSummary) (l : List Char)
    (s' : LeakSummary) (h : processLine s l = Except.ok s') :
    s'.possibly
      = if containsTok posTok l then splitColonSecond l else s.possibly := by
  unfold processLine at h
  obtain ⟨a, ha, h2⟩ := except_bind_ok _ _ _ h
  obtain ⟨b, hb, h3⟩ := except_bind_ok _ _ _ h2
  have hda : a.possibly = s.possibly := by
    rcases updateField_ok _ _ _ _ _ ha with ⟨hc, v, hv, rfl⟩ | ⟨hc, rfl⟩ <;> simp
  have hdb : b.possibly = a.possibly := by
    rcases updateField_ok _ _ _ _ _ hb with ⟨hc, v, hv, rfl⟩ | ⟨hc, rfl⟩ <;> simp
  have hds : s'.possibly
      = if containsTok posTok l then splitColonSecond l else b.possibly := by
    rcases updateField_ok _ _ _ _ _ h3 with ⟨hc, v, hv, rfl⟩ | ⟨hc, rfl⟩
    · simp [hc, hv]
    · simp [hc]
  rw [hds, hdb, hda]

/-- processLine can only fail with indexError. -/
theorem processLine_err (s : LeakSummary) (l : List Char) (e : PyError)
    (h : processLine s l = Except.error e) : e = PyError.indexError := by
  unfold processLine at h
  rcases except_bind_err _ _ _ h with h1 | ⟨a, ha, h2⟩
  · exact updateField_err _ _ _ _ _ h1
  · rcases except_bind_err _ _ _ h2 with h3 | ⟨b, hb, h4⟩
    · exact updateField_err _ _ _ _ _ h3
    · exact updateField_err _ _ _ _ _ h4

/-- A line that contains one of the three tokens but has no parsable colon
    field makes processLine raise indexError, whatever the summary so
    far. -/
theorem processLine_fails (s : LeakSummary) (l : List Char)
    (htok : containsTok defTok l = true ∨ containsTok indTok l = true
      ∨ containsTok posTok l = true)
    (hcol : splitColonSecond l = none) :
    processLine s l = Except.error PyError.indexError := by
  unfold processLine
  by_cases h1 : containsTok defTok l = true
  · simp [updateField, h1, hcol, Bind.bind, Except.bind]
  · have h1' : containsTok defTok l = false := by simpa using h1
    by_cases h2 : containsTok indTok l = true
    · simp [updateField, h1', h2, hcol, Bind.bind, Except.bind]
    · have h2' : containsTok indTok l = false := by simpa using h2
      have h3 : containsTok posTok l = true := by
        rcases htok with h | h | h
        · rw [h] at h1'; cases h1'
        · rw [h] at h2'; cases h2'
        · exact h
      simp [updateField, h1', h2', h3, hcol, Bind.bind, Except.bind]

/-- Splitting on a character that does not occur returns the whole list as
    the single part. -/
theorem splitOnChar_not_mem (c : Char) (l : List Char) (h : c ∉ l) :
    splitOnChar c l = [l] := by
  induction l with
  | nil => rfl
  | cons x xs ih =>
    have h' : c ≠ x ∧ c ∉ xs := by simpa [List.mem_cons, not_or] using h
    obtain ⟨hne, hnm⟩ := h'
    rw [splitOnChar, ih hnm]
    have hxc : ¬x = c := fun hh => hne hh.symm
    simp [hxc]

/-- A line with no colon has no second colon field: line.split(":")[1]
    raises IndexError. -/
theorem splitColonSecond_none (l : List Char) (h : (':' : Char) ∉ l) :
    splitColonSecond l = none := by
  rw [splitColonSecond, splitOnChar_not_mem ':' l h]

/-- Fold invariant for check_leaks_linux: for any field projection that
    processLine updates from lines containing its key, a successful scan
    leaves the field at the parsed value of the last key-containing line
    (or at its start value when no line contains the key). -/
theorem leak_fold_field (proj : LeakSummary → Option (List Char))
    (key : List Char)
    (hstep : ∀ s l s', processLine s l = Except.ok s' →
      proj s' = if containsTok key l then splitColonSecond l else proj s) :
    ∀ (lines : List (List Char)) (s0 : LeakSummary)
      (acc : Option (List Char)) (s : LeakSummary),
      proj s0 = acc.elim none splitColonSecond →
      List.foldlM processLine s0 lines = Except.ok s →
      proj s = (lines.foldl (updAcc key) acc).elim none splitColonSecond := by
  intro lines
  induction lines with
  | nil =>
    intro s0 acc s hinv hfold
    simp only [List.foldlM, pure, Except.pure, Except.ok.injEq] at hfold
    rw [List.foldl_nil, ← hfold]
    exact hinv
  | cons l ls ih =>
    intro s0 acc s hinv hfold
    rw [List.foldlM_cons] at hfold
    obtain ⟨s1, hs1, hrest⟩ := except_bind_ok _ _ _ hfold
    have hinv' : proj s1 = (updAcc key acc l).elim none splitColonSecond := by
      rw [hstep s0 l s1 hs1]
      unfold updAcc
      by_cases hc : containsTok key l = true
      · simp [hc]
      · have hc' : containsTok key l = false := by simpa using hc
        simp [hc', hinv]
    have := ih s1 (updAcc key acc l) s hinv' hrest
    simpa [List.foldl_cons] using this

/-- Once a line that makes processLine fail is in the input, the whole scan
    fails with indexError. -/
theorem leak_fold_err (l : List Char)
    (hl : ∀ s, processLine s l = Except.error PyError.indexError) :
    ∀ (lines : List (List Char)) (s0 : LeakSummary), l ∈ lines →
      List.foldlM processLine s0 lines = Except.error PyError.indexError := by
  intro lines
  induction lines with
  | nil => intro s0 hmem; cases hmem
  | cons x xs ih =>
    intro s0 hmem
    rw [List.foldlM_cons]
    cases hx : processLine s0 x with
    | error e =>
      have he : e = PyError.indexError := processLine_err _ _ _ hx
      rw [he]
      simp [Bind.bind, Except.bind]
    | ok s1 =>
      rcases List.mem_cons.mp hmem with rfl | hmem'
      · rw [hl s0] at hx
        simp at hx
      · simp only [Bind.bind, Except.bind]
        exact ih s1 hmem'

/-- C6 counterexample: on the diagnostic line
    "definitely lost: 120:5 bytes" (two colons), check_leaks_linux sets the
    definitely field to "120" — the text between the first and the second
    colon — not to "120:5 bytes", the text after the first colon as the
    claim states. -/
theorem check_leaks_between_colons_cex :
    check_leaks_linux (("definitely lost: 120:5 bytes").data)
        = Except.ok ⟨some (("120").data), none, none⟩
    ∧ textAfterFirstColon (("definitely lost: 120:5 bytes").data)
        = some (("120:5 bytes").data)
    ∧ (some (("120").data) : Option (List Char))
        ≠ some (("120:5 bytes").data) := by
  refine ⟨by decide, by decide, by decide⟩

/-- C6 (amended): for every diagnostic output that check_leaks_linux parses
    without error, each summary field equals the parsed value — the text
    between the first and the second colon, trimmed — of the LAST output
    line containing the field's token, and is null when no line contains
    the token. -/
theorem check_leaks_field_values (errText : List Char) (s : LeakSummary)
    (h : check_leaks_linux errText = Except.ok s) :
    s.definitely = (lastMatch defTok (splitOnChar '\n' errText)).elim
        none splitColonSecond
    ∧ s.indirectly = (lastMatch indTok (splitOnChar '\n' errText)).elim
        none splitColonSecond
    ∧ s.possibly = (lastMatch posTok (splitOnChar '\n' errText)).elim
        none splitColonSecond := by
  unfold check_leaks_linux at h
  exact ⟨leak_fold_field LeakSummary.definitely defTok processLine_def_field
      (splitOnChar '\n' errText) ⟨none, none, none⟩ none s rfl h,
    leak_fold_field LeakSummary.indirectly indTok processLine_ind_field
      (splitOnChar '\n' errText) ⟨none, none, none⟩ none s rfl h,
    leak_fold_field LeakSummary.possibly posTok processLine_pos_field
      (splitOnChar '\n' errText) ⟨none, none, none⟩ none s rfl h⟩

/-- Witness for C6 (amended): a valgrind-style line
    "==123== definitely lost: 120 bytes" yields definitely = "120 bytes"
    and leaves the other two fields null. -/
theorem check_leaks_field_values_witness :
    (⟨some (("120 bytes").data), none, none⟩ : LeakSummary).definitely
      = (lastMatch defTok (splitOnChar '\n'
          (("==123== definitely lost: 120 bytes").data))).elim
        none splitColonSecond
    ∧ (⟨some (("120 bytes").data), none, none⟩ : LeakSummary).indirectly
      = (lastMatch indTok (splitOnChar '\n'
          (("==123== definitely lost: 120 bytes").data))).elim
        none splitColonSecond
    ∧ (⟨some (("120 bytes").data), none, none⟩ : LeakSummary).possibly
      = (lastMatch posTok (splitOnChar '\n'
          (("==123== definitely lost: 120 bytes").data))).elim
        none splitColonSecond :=
  check_leaks_field_values (("==123== definitely lost: 120 bytes").data)
    ⟨some (("120 bytes").data), none, none⟩ (by decide)

/-- C8 counterexample: a diagnostic line containing "definitely" but no
    colon makes check_leaks_linux raise IndexError (line.split(":")[1] at
    profile.py line 112) instead of completing with a null field. -/
theorem check_leaks_no_colon_cex :
    check_leaks_linux (("definitely lost 120 bytes").data)
      = Except.error PyError.indexError := by
  decide

/-- C8 (amended): whenever some line of the diagnostic output contains one
    of the three tokens but no colon, check_leaks_linux raises IndexError
    (aborting the leak check) rather than completing with the field left
    null. -/
theorem check_leaks_no_colon_raises (errText l : List Char)
    (hmem : l ∈ splitOnChar '\n' errText)
    (htok : containsTok defTok l = true ∨ containsTok indTok l = true
      ∨ containsTok posTok l = true)
    (hcol : (':' : Char) ∉ l) :
    check_leaks_linux errText = Except.error PyError.indexError := by
  have hnone : splitColonSecond l = none := splitColonSecond_none l hcol
  exact leak_fold_err l (fun s => processLine_fails s l htok hnone)
    (splitOnChar '\n' errText) ⟨none, none, none⟩ hmem

/-- Witness for C8 (amended): output whose first line contains "possibly"
    and no colon makes the whole scan raise IndexError. -/
theorem check_leaks_no_colon_raises_witness :
    check_leaks_linux (("possibly leaking stuff\nnormal line").data)
      = Except.error PyError.indexError :=
  check_leaks_no_colon_raises
    (("possibly leaking stuff\nnormal line").data)
    (("possibly leaking stuff").data)
    (by decide) (Or.inr (Or.inr (by decide))) (by decide)

/-- C10: when several output lines contain the same token, the summary
    field for that token carries the parsed value of the last matching
    line, overwriting the values from earlier matching lines. -/
theorem check_leaks_last_match_overwrites (errText : List Char)
    (s : LeakSummary) (h : check_leaks_linux errText = Except.ok s) :
    (∀ l, lastMatch defTok (splitOnChar '\n' errText) = some l →
      s.definitely = splitColonSecond l)
    ∧ (∀ l, lastMatch indTok (splitOnChar '\n' errText) = some l →
      s.indirectly = splitColonSecond l)
    ∧ (∀ l, lastMatch posTok (splitOnChar '\n' errText) = some l →
      s.possibly = splitColonSecond l) := by
  unfold check_leaks_linux at h
  refine ⟨?_, ?_, ?_⟩
  · intro l hl
    have := leak_fold_field LeakSummary.definitely defTok
      processLine_def_field (splitOnChar '\n' errText)
      ⟨none, none, none⟩ none s rfl h
    rw [show (splitOnChar '\n' errText).foldl (updAcc defTok) none
        = lastMatch defTok (splitOnChar '\n' errText) from rfl, hl] at this
    simpa [Option.elim] using this
  · intro l hl
    have := leak_fold_field LeakSummary.indirectly indTok
      processLine_ind_field (splitOnChar '\n' errText)
      ⟨none, none, none⟩ none s rfl h
    rw [show (splitOnChar '\n' errText).foldl (updAcc indTok) none
        = lastMatch indTok (splitOnChar '\n' errText) from rfl, hl] at this
    simpa [Option.elim] using this
  · intro l hl
    have := leak_fold_field LeakSummary.possibly posTok
      processLine_pos_field (splitOnChar '\n' errText)
      ⟨none, none, none⟩ none s rfl h
    rw [show (splitOnChar '\n' errText).foldl (updAcc posTok) none
        = lastMatch posTok (splitOnChar '\n' errText) from rfl, hl] at this
    simpa [Option.elim] using this

/-- Witness for C10: with two lines both containing "definitely", the
    definitely field holds the second line's value "2 bytes". -/
theorem check_leaks_last_match_overwrites_witness :
    (⟨some (("2 bytes").data), none, none⟩ : LeakSummary).definitely
      = splitColonSecond (("definitely lost: 2 bytes").data) :=
  (check_leaks_last_match_overwrites
    (("definitely lost: 1 bytes\ndefinitely lost: 2 bytes").data)
    ⟨some (("2 bytes").data), none, none⟩ (by decide)).1
    (("definitely lost: 2 bytes").data) (by decide)
